import Mathlib

/-!
Verification of the uterm library interface (src/uterm.h) of kmscon:
the input multiplexer, the virtual-terminal manager and the device
monitor. The header is the only source file present; the definitions
below either embed the header's macros, enums and structs directly, or
— where only a declaration exists in the header — model the declared
operation from the specification (each such definition says so in its
doc comment).
-/

/-! ## Modifier masks (enum uterm_input_modifier, src/uterm.h:56-62) -/

def UTERM_SHIFT_MASK : Nat := 1 <<< 0

def UTERM_LOCK_MASK : Nat := 1 <<< 1

def UTERM_CONTROL_MASK : Nat := 1 <<< 2

def UTERM_ALT_MASK : Nat := 1 <<< 3

def UTERM_LOGO_MASK : Nat := 1 <<< 4

/-- UTERM_INPUT_INVALID (src/uterm.h:65): the invalid-codepoint sentinel. -/
def UTERM_INPUT_INVALID : Nat := 0xffffffff

/-- struct uterm_input_event (src/uterm.h:67-76). `keycode` is a uint16,
`ascii` a uint32, `mods` an unsigned modifier mask; `keysyms` and
`codepoints` are the arrays of length `num_syms` (here the list length). -/
structure UtermInputEvent where
  handled : Bool
  keycode : Nat
  ascii : Nat
  mods : Nat
  keysyms : List Nat
  codepoints : List Nat
deriving DecidableEq

/-- UTERM_INPUT_HAS_MODS (src/uterm.h:78):
`(((_ev)->mods & (_mods)) == (_mods))`. -/
def UTERM_INPUT_HAS_MODS (ev : UtermInputEvent) (m : Nat) : Bool :=
  (ev.mods &&& m) == m

/-! ## Input multiplexer state -/

/-- Modelled from the spec: the implementation behind the declarations
`uterm_input_add_dev` / `uterm_input_remove_dev` (src/uterm.h:94-95) and
`uterm_input_sleep` / `uterm_input_wake_up` / `uterm_input_is_awake`
(src/uterm.h:104-106) is not among the repository's files. Per spec §3,
an Input multiplexer owns a set of devices keyed by node path (unique),
an ordered list of subscribers, and a boolean awake/asleep flag. -/
structure InputState where
  devices : List String
  awake : Bool
  subs : List Nat
deriving DecidableEq

/-- Modelled from the spec: `add_dev(node)` is idempotent — a node that is
already owned is not added again; otherwise the device is opened and owned. -/
def uterm_input_add_dev (st : InputState) (node : String) : InputState :=
  if node ∈ st.devices then st else { st with devices := node :: st.devices }

/-- Modelled from the spec: `remove_dev(node)` destroys the owned device for
`node`; removing a node that is not owned is a no-op. -/
def uterm_input_remove_dev (st : InputState) (node : String) : InputState :=
  { st with devices := st.devices.erase node }

/-- Modelled from the spec: `sleep()` clears the global awake flag. -/
def uterm_input_sleep (st : InputState) : InputState :=
  { st with awake := false }

/-- Modelled from the spec: `wake_up()` sets the global awake flag. -/
def uterm_input_wake_up (st : InputState) : InputState :=
  { st with awake := true }

/-- Modelled from the spec: `is_awake()` reads the awake flag. -/
def uterm_input_is_awake (st : InputState) : Bool :=
  st.awake

/-- A subscriber callback (uterm_input_cb, src/uterm.h:80-82): it observes
the event and returns the value it stores into the caller-mutable
`handled` flag. -/
def InputCb : Type := UtermInputEvent → Bool

/-- Modelled from the spec: `register_cb` appends the subscriber to the
ordered subscriber list (registration order = list order). -/
def uterm_input_register_cb (subs : List (Nat × InputCb)) (cb : Nat × InputCb) :
    List (Nat × InputCb) :=
  subs ++ [cb]

/-- Modelled from the spec: one decoded event is dispatched to every
subscriber in registration order; each subscriber sees the event (with the
`handled` flag as left by earlier subscribers) and may rewrite `handled`;
delivery never stops early. Returns the final event and the ids of the
subscribers that were invoked, in invocation order. -/
def dispatch_event : List (Nat × InputCb) → UtermInputEvent →
    UtermInputEvent × List Nat
  | [], ev => (ev, [])
  | (i, f) :: rest, ev =>
    let ev' : UtermInputEvent := { ev with handled := f ev }
    let r := dispatch_event rest ev'
    (r.1, i :: r.2)

/-! ## Virtual terminals -/

/-- The per-VT state machine of spec §4.3: INACTIVE → ACTIVATING → ACTIVE
and ACTIVE → DEACTIVATING → INACTIVE. -/
inductive VtState where
  | inactive
  | activating
  | active
  | deactivating
deriving DecidableEq

/-- Modelled from the spec: a VT (struct uterm_vt, allocated by
`uterm_vt_allocate`, src/uterm.h:154-157) carries its seat name and its
current state. -/
structure Vt where
  seat : String
  state : VtState
deriving DecidableEq

/-- Modelled from the spec: when a switch to another VT of seat `s`
completes, the VT of that seat that was ACTIVE leaves the ACTIVE state
(the kernel switch protocol notifies it with DEACTIVATE). -/
def deactivateSeatOne (s : String) (v : Vt) : Vt :=
  if v.seat = s ∧ v.state = VtState.active then { v with state := VtState.inactive } else v

/-- Modelled from the spec: the list transformation of a completed switch to
the VT at the given position (counted down by the `Option Nat` cursor): that
VT becomes ACTIVE, every other VT of the same seat leaves ACTIVE. -/
def activateAux (s : String) : Option Nat → List Vt → List Vt
  | _, [] => []
  | some 0, v :: rest => { v with state := VtState.active } :: activateAux s none rest
  | some (k + 1), v :: rest => deactivateSeatOne s v :: activateAux s (some k) rest
  | none, v :: rest => deactivateSeatOne s v :: activateAux s none rest

/-- Modelled from the spec: `uterm_vt_activate` (src/uterm.h:162) on the VT
at index `i`, observed after the switch transition completes. An index that
names no VT changes nothing. -/
def uterm_vt_activate (m : List Vt) (i : Nat) : List Vt :=
  match m[i]? with
  | some v => activateAux v.seat (some i) m
  | none => m

/-- Modelled from the spec: the list transformation of a completed
deactivation of the VT at the cursor position. -/
def deactAux : Option Nat → List Vt → List Vt
  | _, [] => []
  | some 0, v :: rest => { v with state := VtState.inactive } :: deactAux none rest
  | some (k + 1), v :: rest => v :: deactAux (some k) rest
  | none, l => l

/-- Modelled from the spec: `uterm_vt_deactivate` (src/uterm.h:163) on the
VT at index `i`, observed after the transition completes. -/
def uterm_vt_deactivate (m : List Vt) (i : Nat) : List Vt :=
  deactAux (some i) m

/-- The number of VTs of seat `s` that are in state ACTIVE. -/
def countActive (s : String) : List Vt → Nat
  | [] => 0
  | v :: rest => (if v.seat = s ∧ v.state = VtState.active then 1 else 0) + countActive s rest

/-- One application-initiated VT call: activate or deactivate by VT index. -/
inductive VtOp where
  | activate (i : Nat)
  | deactivate (i : Nat)

def applyVtOp (m : List Vt) : VtOp → List Vt
  | VtOp.activate i => uterm_vt_activate m i
  | VtOp.deactivate i => uterm_vt_deactivate m i

def applyVtOps (m : List Vt) : List VtOp → List Vt
  | [] => m
  | op :: ops => applyVtOps (applyVtOp m op) ops

/-- Modelled from the spec: `uterm_vt_allocate` registers VTs that start in
state INACTIVE (INACTIVE is the initial state, spec §4.3). -/
def allocateVts (seats : List String) : List Vt :=
  seats.map fun s => { seat := s, state := VtState.inactive }

/-- Modelled from the spec: a VT with a bound Input instance, reduced to the
observables of invariant 4 — the VT state and the bound Input's awake flag. -/
structure VtWithInput where
  state : VtState
  inputAwake : Bool
deriving DecidableEq

/-- A freshly allocated VT is INACTIVE and its bound Input is asleep. -/
def vtInputInit : VtWithInput :=
  { state := VtState.inactive, inputAwake := false }

/-- Modelled from the spec: a completed `uterm_vt_activate` transition wakes
the bound Input in the same transaction in which the VT becomes ACTIVE. -/
def vi_activate (_st : VtWithInput) : VtWithInput :=
  { state := VtState.active, inputAwake := true }

/-- Modelled from the spec: a completed `uterm_vt_deactivate` transition puts
the bound Input to sleep in the same transaction in which the VT leaves
ACTIVE. -/
def vi_deactivate (_st : VtWithInput) : VtWithInput :=
  { state := VtState.inactive, inputAwake := false }

inductive ViOp where
  | activate
  | deactivate

def applyViOp (st : VtWithInput) : ViOp → VtWithInput
  | ViOp.activate => vi_activate st
  | ViOp.deactivate => vi_deactivate st

def applyViOps (st : VtWithInput) : List ViOp → VtWithInput
  | [] => st
  | op :: ops => applyViOps (applyViOp st op) ops

/-! ## System monitor -/

/-- enum uterm_monitor_event_type (src/uterm.h:177-183), with the seat name
and device node the emitted struct uterm_monitor_event carries. -/
inductive MonitorEvent where
  | newSeat (seatName : String)
  | freeSeat (seatName : String)
  | newDev (seatName : String) (node : String)
  | freeDev (seatName : String) (node : String)
  | hotplugDev (seatName : String) (node : String)
deriving DecidableEq

/-- A present seat as the monitor sees it: its name and the nodes of its
present devices. -/
structure MonitorSeat where
  name : String
  devs : List String
deriving DecidableEq

/-- Modelled from the spec: `uterm_monitor_scan` (src/uterm.h:221)
re-enumerates the present hardware, emitting for each seat a synthetic
NEW_SEAT event followed by a NEW_DEV event for each of the seat's devices
(seats strictly precede their devices in emission order). -/
def uterm_monitor_scan : List MonitorSeat → List MonitorEvent
  | [] => []
  | s :: rest =>
    MonitorEvent.newSeat s.name ::
      (s.devs.map (MonitorEvent.newDev s.name) ++ uterm_monitor_scan rest)

def countNewSeat : List MonitorEvent → Nat
  | [] => 0
  | MonitorEvent.newSeat _ :: rest => 1 + countNewSeat rest
  | _ :: rest => countNewSeat rest

def countNewDev : List MonitorEvent → Nat
  | [] => 0
  | MonitorEvent.newDev _ _ :: rest => 1 + countNewDev rest
  | _ :: rest => countNewDev rest

def totalDevs : List MonitorSeat → Nat
  | [] => 0
  | s :: rest => s.devs.length + totalDevs rest

/-- Checks that every NEW_DEV event names a seat whose NEW_SEAT event was
already emitted (`seen` holds the seats announced so far). -/
def seatAnnounced (seen : List String) : List MonitorEvent → Bool
  | [] => true
  | MonitorEvent.newSeat s :: rest => seatAnnounced (s :: seen) rest
  | MonitorEvent.newDev s _ :: rest => decide (s ∈ seen) && seatAnnounced seen rest
  | _ :: rest => seatAnnounced seen rest

/-! ## Construction and kernel-switch outcomes -/

/-- The layout configuration and repeat parameters of `uterm_input_new`
(src/uterm.h:84-90). -/
structure InputConfig where
  model : String
  layout : String
  variant : String
  options : String
  repeat_delay : Nat
  repeat_rate : Nat

/-- Modelled from the spec: `uterm_input_new` — a construction failure of
the symbol-resolution backend (given as its errno) returns a negative status
and produces no object; success returns 0 and a fresh multiplexer owning no
devices. -/
def uterm_input_new (backendErr : Option Nat) (_cfg : InputConfig) :
    Int × Option InputState :=
  match backendErr with
  | some e => (-(1 + (e : Int)), none)
  | none => (0, some { devices := [], awake := false, subs := [] })

/-- Modelled from the spec: a VT master owns the set of VT objects of the
process. -/
structure VtMaster where
  vts : List Vt

/-- Modelled from the spec: `uterm_vt_master_new` (src/uterm.h:146-147) —
construction failure returns a negative status and no object; success
returns 0 and a master owning no VTs yet. -/
def uterm_vt_master_new (backendErr : Option Nat) : Int × Option VtMaster :=
  match backendErr with
  | some e => (-(1 + (e : Int)), none)
  | none => (0, some { vts := [] })

/-- Modelled from the spec: a monitor owns the discovered seat/device tree. -/
structure Monitor where
  sys : List MonitorSeat

/-- Modelled from the spec: `uterm_monitor_new` (src/uterm.h:215-218) —
failure to initialize the discovery backend is fatal, returns a negative
status and creates no object; success returns 0 and a monitor with an empty
tree. -/
def uterm_monitor_new (backendErr : Option Nat) : Int × Option Monitor :=
  match backendErr with
  | some e => (-(1 + (e : Int)), none)
  | none => (0, some { sys := [] })

/-- Modelled from the spec: the kernel-level switch behind
`uterm_vt_activate` on a kernel-backed VT. The kernel's reply is passed as
`kernelErr`; a failure surfaces as a negative error code and leaves the VT
in its current state, success completes the transition to ACTIVE. -/
def vt_activate_result (kernelErr : Option Nat) (st : VtState) : Int × VtState :=
  match kernelErr with
  | some e => (-(1 + (e : Int)), st)
  | none => (0, VtState.active)

/-- Modelled from the spec: the kernel-level switch behind
`uterm_vt_deactivate` on a kernel-backed VT; failure leaves the state
unchanged, success completes the transition to INACTIVE. -/
def vt_deactivate_result (kernelErr : Option Nat) (st : VtState) : Int × VtState :=
  match kernelErr with
  | some e => (-(1 + (e : Int)), st)
  | none => (0, VtState.inactive)

/-- Modelled from the spec: `uterm_vt_retry` (src/uterm.h:164) re-issues a
previously failed kernel-level activation, with the same outcome behaviour. -/
def vt_retry_result (kernelErr : Option Nat) (st : VtState) : Int × VtState :=
  vt_activate_result kernelErr st

/-- The modifier mask selected by a subset of the five modifiers. -/
def modMaskOf (shift lock ctrl alt logo : Bool) : Nat :=
  (if shift then UTERM_SHIFT_MASK else 0) |||
    (if lock then UTERM_LOCK_MASK else 0) |||
    (if ctrl then UTERM_CONTROL_MASK else 0) |||
    (if alt then UTERM_ALT_MASK else 0) |||
    (if logo then UTERM_LOGO_MASK else 0)

/-! ## Theorems -/

/-- A conjunction of masked bits: `a &&& m = m` says exactly that every bit
set in `m` is set in `a`. -/
theorem land_eq_iff_testBit (a m : Nat) :
    a &&& m = m ↔ ∀ i, m.testBit i = true → a.testBit i = true := by
  constructor
  · intro h i hm
    have h1 := congrArg (fun x => Nat.testBit x i) h
    simp only [Nat.testBit_land, hm, Bool.and_true] at h1
    exact h1
  · intro h
    apply Nat.eq_of_testBit_eq
    intro i
    rw [Nat.testBit_land]
    cases hm : m.testBit i
    · simp
    · simp [h i hm]

/-- C1: UTERM_INPUT_HAS_MODS(ev, M) is true iff every bit set in the mask M
is also set in ev->mods — it checks all of M, not mere overlap. -/
theorem has_mods_iff_all_mask_bits (ev : UtermInputEvent) (m : Nat) :
    UTERM_INPUT_HAS_MODS ev m = true ↔
      ∀ i, m.testBit i = true → ev.mods.testBit i = true := by
  show ((ev.mods &&& m) == m) = true ↔ _
  rw [beq_iff_eq]
  exact land_eq_iff_testBit ev.mods m

/-- C10: the five modifier masks are the pairwise-disjoint single-bit values
1<<0 … 1<<4; UTERM_INPUT_HAS_MODS distributes over a union of masks, and a
combined mask uniquely determines its set of modifiers. -/
theorem modifier_masks_single_bit_and_compose :
    (UTERM_SHIFT_MASK = 1 ∧ UTERM_LOCK_MASK = 2 ∧ UTERM_CONTROL_MASK = 4 ∧
        UTERM_ALT_MASK = 8 ∧ UTERM_LOGO_MASK = 16) ∧
    (∀ ev m1 m2, UTERM_INPUT_HAS_MODS ev (m1 ||| m2) =
        (UTERM_INPUT_HAS_MODS ev m1 && UTERM_INPUT_HAS_MODS ev m2)) ∧
    (∀ s1 l1 c1 a1 g1 s2 l2 c2 a2 g2 : Bool,
        modMaskOf s1 l1 c1 a1 g1 = modMaskOf s2 l2 c2 a2 g2 →
          s1 = s2 ∧ l1 = l2 ∧ c1 = c2 ∧ a1 = a2 ∧ g1 = g2) := by
  refine ⟨by decide, ?_, by decide⟩
  intro ev m1 m2
  rw [Bool.eq_iff_iff]
  simp only [UTERM_INPUT_HAS_MODS, Bool.and_eq_true, beq_iff_eq]
  rw [land_eq_iff_testBit, land_eq_iff_testBit, land_eq_iff_testBit]
  constructor
  · intro h
    constructor
    · intro i hi
      exact h i (by rw [Nat.testBit_lor, hi, Bool.true_or])
    · intro i hi
      exact h i (by rw [Nat.testBit_lor, hi, Bool.or_true])
  · rintro ⟨h1, h2⟩ i hi
    rw [Nat.testBit_lor, Bool.or_eq_true] at hi
    cases hi with
    | inl h => exact h1 i h
    | inr h => exact h2 i h

/-- C4: add_dev is idempotent (a second add of the same node is a no-op and
an owned node occurs exactly once), and remove_dev of a node that is not
owned leaves the state unchanged. -/
theorem add_remove_dev_idempotent (st : InputState) (node : String) :
    uterm_input_add_dev (uterm_input_add_dev st node) node =
        uterm_input_add_dev st node ∧
    (st.devices.Nodup → (uterm_input_add_dev st node).devices.count node = 1) ∧
    (node ∉ st.devices → uterm_input_remove_dev st node = st) := by
  refine ⟨?_, ?_, ?_⟩
  · by_cases h : node ∈ st.devices
    · simp [uterm_input_add_dev, h]
    · simp [uterm_input_add_dev, h]
  · intro hnd
    by_cases h : node ∈ st.devices
    · simp only [uterm_input_add_dev, if_pos h]
      exact List.count_eq_one_of_mem hnd h
    · simp only [uterm_input_add_dev, if_neg h]
      rw [List.count_cons_self, List.count_eq_zero_of_not_mem h]
  · intro h
    cases st with
    | mk devices awake subs =>
      simp only [uterm_input_remove_dev] at *
      simp [List.erase_of_not_mem h]

/-- C5: sleep and wake_up are idempotent, both on the state and on the
is_awake observation. -/
theorem sleep_wake_idempotent (st : InputState) :
    uterm_input_sleep (uterm_input_sleep st) = uterm_input_sleep st ∧
    uterm_input_wake_up (uterm_input_wake_up st) = uterm_input_wake_up st ∧
    uterm_input_is_awake (uterm_input_sleep (uterm_input_sleep st)) =
        uterm_input_is_awake (uterm_input_sleep st) ∧
    uterm_input_is_awake (uterm_input_wake_up (uterm_input_wake_up st)) =
        uterm_input_is_awake (uterm_input_wake_up st) :=
  ⟨rfl, rfl, rfl, rfl⟩

/-- Dispatch reaches every subscriber in list order, whatever the callbacks
do to the `handled` flag. -/
theorem dispatch_event_ids (subs : List (Nat × InputCb)) (ev : UtermInputEvent) :
    (dispatch_event subs ev).2 = subs.map Prod.fst := by
  induction subs generalizing ev with
  | nil => rfl
  | cons c rest ih =>
    cases c with
    | mk i f => simp [dispatch_event, ih]

/-- C7: every registered subscriber is invoked for every event, in exact
registration order (register_cb appends at the tail); in particular a head
subscriber that sets handled := true does not stop delivery to the rest. -/
theorem input_cb_fanout_order :
    (∀ subs ev, (dispatch_event subs ev).2 = subs.map Prod.fst) ∧
    (∀ subs cb ev, (dispatch_event (uterm_input_register_cb subs cb) ev).2 =
        subs.map Prod.fst ++ [cb.1]) ∧
    (∀ i subs ev, (dispatch_event ((i, fun _ => true) :: subs) ev).2 =
        i :: subs.map Prod.fst) := by
  refine ⟨dispatch_event_ids, ?_, ?_⟩
  · intro subs cb ev
    rw [dispatch_event_ids, uterm_input_register_cb, List.map_append]
    rfl
  · intro i subs ev
    rw [dispatch_event_ids]
    rfl

/-- Invariant 4 (awake iff ACTIVE) is preserved by every completed
activate/deactivate transition of a VT with a bound Input. -/
theorem vi_invariant (ops : List ViOp) :
    ∀ st : VtWithInput, (st.inputAwake = true ↔ st.state = VtState.active) →
      ((applyViOps st ops).inputAwake = true ↔
        (applyViOps st ops).state = VtState.active) := by
  induction ops with
  | nil => intro st h; exact h
  | cons op ops ih =>
    intro st h
    cases op with
    | activate => exact ih _ (by simp [applyViOp, vi_activate])
    | deactivate => exact ih _ (by simp [applyViOp, vi_deactivate])

/-- C3: for a VT with a bound Input, the Input is awake immediately after an
activate completes and asleep immediately after a deactivate completes, and
after any call sequence the Input is awake iff the VT is ACTIVE (each
transition is one atomic step of the model, so no state in between is
observable). -/
theorem vt_input_wake_binding :
    (∀ st, (vi_activate st).inputAwake = true ∧
        (vi_activate st).state = VtState.active) ∧
    (∀ st, (vi_deactivate st).inputAwake = false ∧
        (vi_deactivate st).state = VtState.inactive) ∧
    (∀ ops, (applyViOps vtInputInit ops).inputAwake = true ↔
        (applyViOps vtInputInit ops).state = VtState.active) :=
  ⟨fun _ => ⟨rfl, rfl⟩, fun _ => ⟨rfl, rfl⟩,
    fun ops => vi_invariant ops vtInputInit (by simp [vtInputInit])⟩

/-- C8: each creation call returns a negative status with no object exactly
when construction fails, and a non-negative status with an object exactly
when it succeeds. -/
theorem creation_negative_iff_no_object (backendErr : Option Nat) (cfg : InputConfig) :
    ((uterm_input_new backendErr cfg).1 < 0 ↔ (uterm_input_new backendErr cfg).2 = none) ∧
    (0 ≤ (uterm_input_new backendErr cfg).1 ↔
      ∃ st, (uterm_input_new backendErr cfg).2 = some st) ∧
    ((uterm_vt_master_new backendErr).1 < 0 ↔ (uterm_vt_master_new backendErr).2 = none) ∧
    (0 ≤ (uterm_vt_master_new backendErr).1 ↔
      ∃ vtm, (uterm_vt_master_new backendErr).2 = some vtm) ∧
    ((uterm_monitor_new backendErr).1 < 0 ↔ (uterm_monitor_new backendErr).2 = none) ∧
    (0 ≤ (uterm_monitor_new backendErr).1 ↔
      ∃ mon, (uterm_monitor_new backendErr).2 = some mon) := by
  cases backendErr with
  | none => simp [uterm_input_new, uterm_vt_master_new, uterm_monitor_new]
  | some e =>
    simp only [uterm_input_new, uterm_vt_master_new, uterm_monitor_new]
    refine ⟨by simp; omega, by simp; omega, by simp; omega, by simp; omega,
      by simp; omega, by simp; omega⟩

/-- C9: a kernel-level switch failure (kernel errno `e`) surfaces from
activate/deactivate/retry as a negative error code and leaves the VT in its
current state. -/
theorem vt_switch_failure_preserves_state (e : Nat) (st : VtState) :
    ((vt_activate_result (some e) st).2 = st ∧ (vt_activate_result (some e) st).1 < 0) ∧
    ((vt_deactivate_result (some e) st).2 = st ∧ (vt_deactivate_result (some e) st).1 < 0) ∧
    ((vt_retry_result (some e) st).2 = st ∧ (vt_retry_result (some e) st).1 < 0) := by
  refine ⟨⟨rfl, ?_⟩, ⟨rfl, ?_⟩, ⟨rfl, ?_⟩⟩ <;>
    · show -(1 + (e : Int)) < 0
      omega

theorem countNewSeat_append (l1 l2 : List MonitorEvent) :
    countNewSeat (l1 ++ l2) = countNewSeat l1 + countNewSeat l2 := by
  induction l1 with
  | nil => simp [countNewSeat]
  | cons e rest ih => cases e <;> simp [countNewSeat, ih, Nat.add_assoc]

theorem countNewDev_append (l1 l2 : List MonitorEvent) :
    countNewDev (l1 ++ l2) = countNewDev l1 + countNewDev l2 := by
  induction l1 with
  | nil => simp [countNewDev]
  | cons e rest ih => cases e <;> simp [countNewDev, ih, Nat.add_assoc]

theorem countNewSeat_map_newDev (s : String) (devs : List String) :
    countNewSeat (devs.map (MonitorEvent.newDev s)) = 0 := by
  induction devs with
  | nil => rfl
  | cons d ds ih => simpa [countNewSeat] using ih

theorem countNewDev_map_newDev (s : String) (devs : List String) :
    countNewDev (devs.map (MonitorEvent.newDev s)) = devs.length := by
  induction devs with
  | nil => rfl
  | cons d ds ih => simp [countNewDev, ih]; omega

theorem seatAnnounced_map_newDev (seen : List String) (s : String)
    (devs : List String) (rest : List MonitorEvent) (h : s ∈ seen) :
    seatAnnounced seen (devs.map (MonitorEvent.newDev s) ++ rest) =
      seatAnnounced seen rest := by
  induction devs with
  | nil => rfl
  | cons d ds ih => simp [seatAnnounced, h, ih]

/-- Every event list a scan emits passes the seat-precedence check. -/
theorem seatAnnounced_scan (sys : List MonitorSeat) :
    ∀ seen : List String, seatAnnounced seen (uterm_monitor_scan sys) = true := by
  induction sys with
  | nil => intro seen; rfl
  | cons s rest ih =>
    intro seen
    show seatAnnounced (s.name :: seen)
      (s.devs.map (MonitorEvent.newDev s.name) ++ uterm_monitor_scan rest) = true
    rw [seatAnnounced_map_newDev _ _ _ _ (List.mem_cons_self _ _)]
    exact ih _

/-- Soundness of the seat-precedence check: in a list that passes it, any
NEW_DEV for seat `s` is preceded by NEW_SEAT for `s` (or `s` was already in
`seen`). -/
theorem seatAnnounced_split (l1 : List MonitorEvent) :
    ∀ (seen : List String) (l2 : List MonitorEvent) (s d : String),
      seatAnnounced seen (l1 ++ MonitorEvent.newDev s d :: l2) = true →
        s ∈ seen ∨ MonitorEvent.newSeat s ∈ l1 := by
  induction l1 with
  | nil =>
    intro seen l2 s d h
    simp only [List.nil_append, seatAnnounced, Bool.and_eq_true,
      decide_eq_true_eq] at h
    exact Or.inl h.1
  | cons e rest ih =>
    intro seen l2 s d h
    cases e with
    | newSeat t =>
      have h' : seatAnnounced (t :: seen)
          (rest ++ MonitorEvent.newDev s d :: l2) = true := h
      rcases ih (t :: seen) l2 s d h' with hm | hm
      · rcases List.mem_cons.mp hm with he | he
        · subst he
          exact Or.inr (List.mem_cons_self _ _)
        · exact Or.inl he
      · exact Or.inr (List.mem_cons_of_mem _ hm)
    | newDev t d' =>
      have h' : (decide (t ∈ seen) &&
          seatAnnounced seen (rest ++ MonitorEvent.newDev s d :: l2)) = true := h
      rcases ih seen l2 s d (Bool.and_elim_right h') with hm | hm
      · exact Or.inl hm
      · exact Or.inr (List.mem_cons_of_mem _ hm)
    | freeSeat t =>
      rcases ih seen l2 s d h with hm | hm
      · exact Or.inl hm
      · exact Or.inr (List.mem_cons_of_mem _ hm)
    | freeDev t d' =>
      rcases ih seen l2 s d h with hm | hm
      · exact Or.inl hm
      · exact Or.inr (List.mem_cons_of_mem _ hm)
    | hotplugDev t d' =>
      rcases ih seen l2 s d h with hm | hm
      · exact Or.inl hm
      · exact Or.inr (List.mem_cons_of_mem _ hm)

/-- C6: a scan over a system with N present seats and M present devices
emits exactly N NEW_SEAT and M NEW_DEV events, and in the emitted sequence
every device's NEW_DEV is preceded by the NEW_SEAT of its owning seat. -/
theorem monitor_scan_counts_and_order (sys : List MonitorSeat) :
    countNewSeat (uterm_monitor_scan sys) = sys.length ∧
    countNewDev (uterm_monitor_scan sys) = totalDevs sys ∧
    (∀ l1 l2 s d, uterm_monitor_scan sys = l1 ++ MonitorEvent.newDev s d :: l2 →
      MonitorEvent.newSeat s ∈ l1) := by
  refine ⟨?_, ?_, ?_⟩
  · induction sys with
    | nil => rfl
    | cons s rest ih =>
      show countNewSeat (MonitorEvent.newSeat s.name ::
        (s.devs.map (MonitorEvent.newDev s.name) ++ uterm_monitor_scan rest)) = _
      simp [countNewSeat, countNewSeat_append, countNewSeat_map_newDev, ih]
      omega
  · induction sys with
    | nil => rfl
    | cons s rest ih =>
      show countNewDev (MonitorEvent.newSeat s.name ::
        (s.devs.map (MonitorEvent.newDev s.name) ++ uterm_monitor_scan rest)) = _
      simp [countNewDev, countNewDev_append, countNewDev_map_newDev, ih, totalDevs]
  · intro l1 l2 s d hsplit
    have h := seatAnnounced_scan sys []
    rw [hsplit] at h
    rcases seatAnnounced_split l1 [] l2 s d h with hm | hm
    · exact absurd hm (List.not_mem_nil _)
    · exact hm

theorem deactivateSeatOne_seat (s : String) (v : Vt) :
    (deactivateSeatOne s v).seat = v.seat := by
  unfold deactivateSeatOne
  split <;> rfl

theorem deactivateSeatOne_active_iff (s : String) (v : Vt) :
    (deactivateSeatOne s v).state = VtState.active ↔
      v.state = VtState.active ∧ v.seat ≠ s := by
  unfold deactivateSeatOne
  split
  · rename_i h
    simp [h.1]
  · rename_i h
    constructor
    · intro ha
      exact ⟨ha, fun hs => h ⟨hs, ha⟩⟩
    · exact fun ha => ha.1

/-- A VT run through `deactivateSeatOne s` never counts toward seat `s`. -/
theorem contrib_deactivateSeatOne_self (s : String) (v : Vt) :
    (if (deactivateSeatOne s v).seat = s ∧
        (deactivateSeatOne s v).state = VtState.active then 1 else 0) = 0 := by
  rw [if_neg]
  rintro ⟨h1, h2⟩
  rw [deactivateSeatOne_active_iff] at h2
  exact h2.2 (by rw [← deactivateSeatOne_seat s v]; exact h1)

/-- For a seat other than `s`, `deactivateSeatOne s` changes no VT's
contribution. -/
theorem contrib_deactivateSeatOne_other (s t : String) (h : t ≠ s) (v : Vt) :
    (if (deactivateSeatOne s v).seat = t ∧
        (deactivateSeatOne s v).state = VtState.active then 1 else 0) =
      (if v.seat = t ∧ v.state = VtState.active then 1 else 0) := by
  rw [deactivateSeatOne_seat]
  by_cases h1 : v.seat = t
  · by_cases h2 : v.state = VtState.active
    · have hvs : v.seat ≠ s := by
        rw [h1]
        exact h
      simp [h1, h2, deactivateSeatOne_active_iff, hvs]
      exact h
    · simp [h1, h2, deactivateSeatOne_active_iff]
  · simp [h1]

theorem countActive_activateAux_none_self (s : String) (m : List Vt) :
    countActive s (activateAux s none m) = 0 := by
  induction m with
  | nil => rfl
  | cons v rest ih =>
    show (if (deactivateSeatOne s v).seat = s ∧
        (deactivateSeatOne s v).state = VtState.active then 1 else 0) +
      countActive s (activateAux s none rest) = 0
    rw [contrib_deactivateSeatOne_self, ih]

theorem countActive_activateAux_none_other (s t : String) (h : t ≠ s)
    (m : List Vt) : countActive t (activateAux s none m) = countActive t m := by
  induction m with
  | nil => rfl
  | cons v rest ih =>
    show (if (deactivateSeatOne s v).seat = t ∧
        (deactivateSeatOne s v).state = VtState.active then 1 else 0) +
      countActive t (activateAux s none rest) =
      (if v.seat = t ∧ v.state = VtState.active then 1 else 0) + countActive t rest
    rw [contrib_deactivateSeatOne_other s t h, ih]

/-- After a completed switch to any position, at most one VT of the target
seat is ACTIVE. -/
theorem countActive_activateAux_cursor_self (s : String) :
    ∀ (i : Nat) (m : List Vt), countActive s (activateAux s (some i) m) ≤ 1 := by
  intro i m
  induction m generalizing i with
  | nil => simp [activateAux, countActive]
  | cons v rest ih =>
    cases i with
    | zero =>
      show (if ({ v with state := VtState.active } : Vt).seat = s ∧
          (VtState.active = VtState.active) then 1 else 0) +
        countActive s (activateAux s none rest) ≤ 1
      rw [countActive_activateAux_none_self]
      split <;> omega
    | succ k =>
      show (if (deactivateSeatOne s v).seat = s ∧
          (deactivateSeatOne s v).state = VtState.active then 1 else 0) +
        countActive s (activateAux s (some k) rest) ≤ 1
      rw [contrib_deactivateSeatOne_self]
      simpa using ih k

/-- A completed switch whose target VT is on seat `s` leaves the ACTIVE
count of every other seat unchanged. -/
theorem countActive_activateAux_cursor_other (s t : String) (h : t ≠ s) :
    ∀ (k : Nat) (m : List Vt), (∀ v, m[k]? = some v → v.seat = s) →
      countActive t (activateAux s (some k) m) = countActive t m := by
  intro k m
  induction m generalizing k with
  | nil =>
    intro _
    cases k <;> rfl
  | cons v rest ih =>
    intro hk
    cases k with
    | zero =>
      have hv : v.seat = s := hk v (by simp)
      show (if ({ v with state := VtState.active } : Vt).seat = t ∧
          (VtState.active = VtState.active) then 1 else 0) +
        countActive t (activateAux s none rest) =
        (if v.seat = t ∧ v.state = VtState.active then 1 else 0) + countActive t rest
      rw [countActive_activateAux_none_other s t h rest]
      have hvt : v.seat ≠ t := by
        rw [hv]
        exact fun hh => h hh.symm
      simp [hvt]
    | succ k' =>
      show (if (deactivateSeatOne s v).seat = t ∧
          (deactivateSeatOne s v).state = VtState.active then 1 else 0) +
        countActive t (activateAux s (some k') rest) =
        (if v.seat = t ∧ v.state = VtState.active then 1 else 0) + countActive t rest
      rw [contrib_deactivateSeatOne_other s t h,
        ih k' (fun w hw => hk w (by simpa using hw))]

/-- A completed deactivation never increases any seat's ACTIVE count. -/
theorem countActive_deactAux_le (t : String) :
    ∀ (o : Option Nat) (m : List Vt), countActive t (deactAux o m) ≤ countActive t m := by
  intro o m
  induction m generalizing o with
  | nil => cases o <;> simp [deactAux]
  | cons v rest ih =>
    cases o with
    | none => simp [deactAux]
    | some k =>
      cases k with
      | zero =>
        show (if ({ v with state := VtState.inactive } : Vt).seat = t ∧
            (VtState.inactive = VtState.active) then 1 else 0) +
          countActive t (deactAux none rest) ≤
          (if v.seat = t ∧ v.state = VtState.active then 1 else 0) + countActive t rest
        have h0 : deactAux none rest = rest := by
          cases rest <;> rfl
        rw [h0]
        simp
      | succ k' =>
        show (if v.seat = t ∧ v.state = VtState.active then 1 else 0) +
          countActive t (deactAux (some k') rest) ≤
          (if v.seat = t ∧ v.state = VtState.active then 1 else 0) + countActive t rest
        have := ih (some k')
        omega

/-- Invariant: every seat has at most one ACTIVE VT. -/
def seatExclusive (m : List Vt) : Prop :=
  ∀ s, countActive s m ≤ 1

theorem applyVtOp_preserves_seatExclusive (m : List Vt) (op : VtOp)
    (h : seatExclusive m) : seatExclusive (applyVtOp m op) := by
  cases op with
  | activate i =>
    intro t
    show countActive t (uterm_vt_activate m i) ≤ 1
    unfold uterm_vt_activate
    cases hv : m[i]? with
    | none => exact h t
    | some v =>
      by_cases ht : t = v.seat
      · subst ht
        exact countActive_activateAux_cursor_self v.seat i m
      · rw [countActive_activateAux_cursor_other v.seat t ht i m
          (fun w hw => by rw [hv] at hw; cases hw; rfl)]
        exact h t
  | deactivate i =>
    intro t
    show countActive t (uterm_vt_deactivate m i) ≤ 1
    exact le_trans (countActive_deactAux_le t (some i) m) (h t)

theorem applyVtOps_preserves_seatExclusive (ops : List VtOp) :
    ∀ m : List Vt, seatExclusive m → seatExclusive (applyVtOps m ops) := by
  induction ops with
  | nil => exact fun m h => h
  | cons op ops ih =>
    exact fun m h => ih _ (applyVtOp_preserves_seatExclusive m op h)

theorem countActive_allocateVts (seats : List String) (t : String) :
    countActive t (allocateVts seats) = 0 := by
  induction seats with
  | nil => rfl
  | cons a rest ih =>
    show (if a = t ∧ (VtState.inactive = VtState.active) then 1 else 0) +
      countActive t (allocateVts rest) = 0
    simp [ih]

/-- C2: for every seat, after any sequence of activate/deactivate calls on
the VTs allocated for it, at most one VT of that seat is ACTIVE. -/
theorem vt_seat_mutual_exclusion (seats : List String) (ops : List VtOp)
    (s : String) : countActive s (applyVtOps (allocateVts seats) ops) ≤ 1 :=
  applyVtOps_preserves_seatExclusive ops (allocateVts seats)
    (fun t => by rw [countActive_allocateVts seats t]; omega) s
